import Mathlib

/-!
Verification of the schema-graph assembly and rendering pipeline
(`UNO-SOFT/schema-graph`, `main.go`).

The Go program is shallowly embedded: Go strings are Lean `String`s
(valid UTF-8; Go byte-lexicographic comparison coincides with the
code-point order used here), Go slices are Lean `List`s, and the Go map
`map[string][]Constraint` is an association list with unique keys and
Go-map update semantics.  Stateful loops become structural recursions or
folds; everything is computable so that the definitions evaluate on
concrete inputs.  Where a Go standard-library function is used by the
program (`strings.TrimSpace`, `strings.Replace`, `html.EscapeString`,
`strconv.Quote` via `%q`, `encoding/json`, and the vendored
`go-wordwrap`) it is modelled by a structurally recursive Lean function
with the same behaviour on the inputs this program can produce
(documented at each definition).

The file is organised as: definitions (embedding + specification-side
descriptions), then the supporting lemmas, then one theorem per claim
with its witness or counterexample.
-/

namespace SchemaGraph

/-! ## Basic string machinery (structural, kernel-reducible) -/

/-- Sequential writes to a buffered writer concatenate; a rendered
document is the concatenation of its written pieces. -/
def strCat : List String → String
  | [] => ""
  | s :: l => s ++ strCat l

/-- Go `unicode.IsSpace` restricted to the code points that matter for
the metadata this program trims (ASCII whitespace plus NEL and NBSP). -/
def isSpaceGo (c : Char) : Bool :=
  c = ' ' ∨ c = '\t' ∨ c = '\n' ∨ c = '\x0b' ∨ c = '\x0c' ∨ c = '\r' ∨
    c.toNat = 133 ∨ c.toNat = 160

/-- Go `strings.TrimSpace`: drop leading and trailing whitespace. -/
def trimSpace (s : String) : String :=
  ⟨((s.data.dropWhile isSpaceGo).reverse.dropWhile isSpaceGo).reverse⟩

/-- Go string `<` (byte-lexicographic; equal to code-point
lexicographic order on valid UTF-8 strings). -/
def listLtB : List Char → List Char → Bool
  | [], [] => false
  | [], _ :: _ => true
  | _ :: _, [] => false
  | a :: as, b :: bs =>
    if a.toNat < b.toNat then true
    else if b.toNat < a.toNat then false
    else listLtB as bs

/-- Go `a < b` on strings. -/
def strLt (a b : String) : Bool := listLtB a.data b.data

/-! ## Data model (`main.go` type declarations) -/

/-- `type Column struct { Name, Type, Comment string; Unique bool }`
(`Type` is spelled `Typ`, Lean reserves the word). -/
structure Column where
  Name : String
  Typ : String
  Comment : String
  Unique : Bool
  deriving DecidableEq

/-- `type TableConstraint struct { Columns []string; RemoteOwner, RemoteTable, RemoteName string }` -/
structure TableConstraint where
  Columns : List String
  RemoteOwner : String
  RemoteTable : String
  RemoteName : String
  deriving DecidableEq

/-- `type Table struct { Owner, Name, Comment string; Columns []Column; Constraints []TableConstraint }` -/
structure Table where
  Owner : String
  Name : String
  Comment : String
  Columns : List Column
  Constraints : List TableConstraint
  deriving DecidableEq

/-- `type Constraint struct { Owner, Name, Type, Table string; TableConstraint }`
(the embedded `TableConstraint` is the field `tc`). -/
structure Constraint where
  Owner : String
  Name : String
  Typ : String
  Table : String
  tc : TableConstraint
  deriving DecidableEq

/-- The zero value of `Table` (Go `var tp Table`). -/
def zeroTable : Table := { Owner := "", Name := "", Comment := "", Columns := [], Constraints := [] }

/-- The zero value of `Constraint` (Go `var cp Constraint`). -/
def zeroConstraint : Constraint :=
  { Owner := "", Name := "", Typ := "", Table := ""
    tc := { Columns := [], RemoteOwner := "", RemoteTable := "", RemoteName := "" } }

/-! ## The Go map `map[string][]Constraint`

Modelled as an association list with unique keys; `mapAppend` is
`m[k] = append(m[k], v)` (lookup of an absent key yields the nil
slice, i.e. `[]`). -/

/-- Association-list type standing for Go `map[string][]Constraint`. -/
abbrev ConsMap := List (String × List Constraint)

/-- Lookup, `none` when the key is absent. -/
def lookupA : ConsMap → String → Option (List Constraint)
  | [], _ => none
  | (k, v) :: m, k' => if k' = k then some v else lookupA m k'

/-- Go map indexing `m[k]` (absent key reads as the nil slice). -/
def mapGet (m : ConsMap) (k : String) : List Constraint := (lookupA m k).getD []

/-- Go `m[k] = append(m[k], v)`. -/
def mapAppend : ConsMap → String → Constraint → ConsMap
  | [], k, v => [(k, [v])]
  | (k', vs) :: m, k, v => if k = k' then (k', vs ++ [v]) :: m else (k', vs) :: mapAppend m k v

/-! ## Identifier normalisation (`name`, `main.go:138-142`) -/

/-- `const Dot = "__"` -/
def Dot : List Char := ['_', '_']

/-- `strings.NewReplacer(".", Dot, "$", "_")` applied to a string: both
patterns are single characters, so the replacer maps characters
independently. -/
def replDotL : List Char → List Char
  | [] => []
  | c :: cs => (if c = '.' then ['_', '_'] else if c = '$' then ['_'] else [c]) ++ replDotL cs

/-- Go `strings.Join(parts, sep)`. -/
def joinSep (sep : List Char) : List (List Char) → List Char
  | [] => []
  | [x] => x
  | x :: xs => x ++ sep ++ joinSep sep xs

/-- `func name(s ...string) string { return replDot.Replace(strings.Join(s, Dot)) }` -/
def name (s : List String) : String := ⟨replDotL (joinSep Dot (s.map String.data))⟩

/-! ## Group key (`grp`, `main.go:538-545`) -/

/-- Split point of a string at the first occurrence of a character
(`none` when the character does not occur). -/
def breakAtChar (c : Char) : List Char → Option (List Char × List Char)
  | [] => none
  | x :: xs =>
    if x = c then some ([], xs)
    else (breakAtChar c xs).map fun p => (x :: p.1, p.2)

/-- `strings.SplitN(s, sep, n)` for a single-character separator:
split around the first `n-1` occurrences, the last part keeps the
remainder. -/
def splitNChar (c : Char) : Nat → List Char → List (List Char)
  | 0, _ => []
  | 1, s => [s]
  | n + 2, s =>
    match breakAtChar c s with
    | none => [s]
    | some (pre, post) => pre :: splitNChar c (n + 1) post

/-- The indexed loop body of `grp`: return the first part at index ≥ 1
whose length exceeds 2 (Go `len` counts bytes; on the ASCII names this
program handles, characters and bytes agree). -/
def grpLoop (i : Nat) : List (List Char) → Option (List Char)
  | [] => none
  | p :: ps => if 1 ≤ i ∧ 2 < p.length then some p else grpLoop (i + 1) ps

/-- `func grp(s string) string` (`main.go:538-545`). -/
def grp (s : String) : String :=
  match grpLoop 0 (splitNChar '_' 3 s.data) with
  | some part => ⟨part⟩
  | none => s

/-! ## Row Merger (`readTables` `main.go:397-422`, `readConstraints` `main.go:472-501`)

The database is external; the merger is modelled as a function of the
already-scanned row stream. -/

/-- One scanned column row `(owner, table_name, column_name, data_type,
tab_comment, col_comment)`. -/
structure ColRow where
  owner : String
  tableName : String
  colName : String
  colType : String
  tabComment : String
  colComment : String
  deriving DecidableEq

/-- The column built from a row (`rows.Scan(... &c.Name, &c.Type, ... &c.Comment)`,
comment trimmed; `Unique` is the zero value `false`). -/
def rowColumn (r : ColRow) : Column :=
  { Name := r.colName, Typ := r.colType, Comment := trimSpace r.colComment, Unique := false }

/-- The fresh table built from a row (`ta` with `ta.Columns = []Column{c}`). -/
def rowTable (r : ColRow) : Table :=
  { Owner := r.owner, Name := r.tableName, Comment := trimSpace r.tabComment
    Columns := [rowColumn r], Constraints := [] }

/-- The loop of `readTables`: state is the output list and the
partially built current table `tp`; the empty table name is the
"no current entity" sentinel, and the final pending table is flushed
after the stream ends. -/
def readTablesLoop : List Table → Table → List ColRow → List Table
  | tables, tp, [] => if tp.Name ≠ "" then tables ++ [tp] else tables
  | tables, tp, r :: rs =>
    let ta := rowTable r
    if tp.Name = "" then readTablesLoop tables ta rs
    else if ¬(tp.Owner = ta.Owner ∧ tp.Name = ta.Name) then
      readTablesLoop (tables ++ [tp]) ta rs
    else readTablesLoop tables { tp with Columns := tp.Columns ++ [rowColumn r] } rs

/-- `readTables` as a function of the scanned row stream. -/
def readTables (rows : List ColRow) : List Table := readTablesLoop [] zeroTable rows

/-- One scanned constraint-membership row `(owner, constraint_name,
constraint_type, table_name, column_name, r_owner, r_table_name, r_pk)`. -/
structure ConsRow where
  owner : String
  consName : String
  consType : String
  tableName : String
  colName : String
  remoteOwner : String
  remoteTable : String
  remoteName : String
  deriving DecidableEq

/-- The fresh constraint built from a row (`ca` with `ca.Columns = []string{colName}`). -/
def rowCons (r : ConsRow) : Constraint :=
  { Owner := r.owner, Name := r.consName, Typ := r.consType, Table := r.tableName
    tc := { Columns := [r.colName], RemoteOwner := r.remoteOwner
            RemoteTable := r.remoteTable, RemoteName := r.remoteName } }

/-- The key comparison of `readConstraints`: all seven non-column
fields must agree for the row to extend the current constraint. -/
def sameConsB (ca cp : Constraint) : Bool :=
  ca.Owner = cp.Owner ∧ ca.Name = cp.Name ∧ ca.Typ = cp.Typ ∧ ca.Table = cp.Table ∧
    ca.tc.RemoteOwner = cp.tc.RemoteOwner ∧ ca.tc.RemoteTable = cp.tc.RemoteTable ∧
    ca.tc.RemoteName = cp.tc.RemoteName

/-- The map key a constraint is flushed under: `cp.Owner + "." + cp.Table`. -/
def consKey (c : Constraint) : String := c.Owner ++ "." ++ c.Table

/-- The loop of `readConstraints`: the current constraint is flushed
into the map under `owner + "." + table` when the seven-field key
changes; the empty constraint name is the sentinel. -/
def readConstraintsLoop : ConsMap → Constraint → List ConsRow → ConsMap
  | m, cp, [] => if cp.Name ≠ "" then mapAppend m (consKey cp) cp else m
  | m, cp, r :: rs =>
    let ca := rowCons r
    if cp.Name = "" then readConstraintsLoop m ca rs
    else if ¬(sameConsB ca cp = true) then
      readConstraintsLoop (mapAppend m (consKey cp) cp) ca rs
    else readConstraintsLoop m { cp with tc := { cp.tc with Columns := cp.tc.Columns ++ [r.colName] } } rs

/-- `readConstraints` as a function of the scanned row stream. -/
def readConstraints (rows : List ConsRow) : ConsMap :=
  readConstraintsLoop [] zeroConstraint rows

/-! ## Specification side of the Row Merger: maximal consecutive runs -/

/-- Chunk a list into maximal runs of consecutive elements that agree
(under `p`) with the first element of the run. -/
def runsBy (p : α → α → Bool) : List α → List (List α)
  | [] => []
  | a :: as => go a [a] as
where
  go (cur : α) (acc : List α) : List α → List (List α)
    | [] => [acc.reverse]
    | b :: bs => if p cur b then go cur (b :: acc) bs else acc.reverse :: go b [b] bs

/-- Two column rows belong to the same table entity. -/
def sameRowT (r r' : ColRow) : Bool := r.owner = r'.owner ∧ r.tableName = r'.tableName

/-- The table entity a run of column rows merges to: key fields and
comment from the first row, one column per row in original order. -/
def entityT : List ColRow → Table
  | [] => zeroTable
  | r :: rs =>
    { Owner := r.owner, Name := r.tableName, Comment := trimSpace r.tabComment
      Columns := rowColumn r :: rs.map rowColumn, Constraints := [] }

/-- Specification of the table merger: one entity per maximal
consecutive key-run, in stream order. -/
def groupRunsT (rows : List ColRow) : List Table := (runsBy sameRowT rows).map entityT

/-- Two constraint rows belong to the same constraint entity (all
seven non-column fields agree). -/
def sameRowC (r r' : ConsRow) : Bool :=
  r'.owner = r.owner ∧ r'.consName = r.consName ∧ r'.consType = r.consType ∧
    r'.tableName = r.tableName ∧ r'.remoteOwner = r.remoteOwner ∧
    r'.remoteTable = r.remoteTable ∧ r'.remoteName = r.remoteName

/-- The constraint entity a run of rows merges to: one column name per
row, in original order. -/
def entityC : List ConsRow → Constraint
  | [] => zeroConstraint
  | r :: rs =>
    { Owner := r.owner, Name := r.consName, Typ := r.consType, Table := r.tableName
      tc := { Columns := r.colName :: rs.map (·.colName), RemoteOwner := r.remoteOwner
              RemoteTable := r.remoteTable, RemoteName := r.remoteName } }

/-- Specification of the constraint merger output as a list, one
entity per maximal consecutive key-run, in stream order. -/
def groupRunsC (rows : List ConsRow) : List Constraint := (runsBy sameRowC rows).map entityC

/-- Inserting a flush list into a map in stream order, each entity
appended under its `owner + "." + table` key. -/
def buildConsMapFrom (m : ConsMap) (l : List Constraint) : ConsMap :=
  l.foldl (fun m c => mapAppend m (consKey c) c) m

/-- The map the merged constraint entities build up, starting empty. -/
def buildConsMap (l : List Constraint) : ConsMap := buildConsMapFrom [] l

/-- The single-accumulator core of both mergers: flush on key change,
flush the pending entity at end of stream. -/
def mergeFrom (same : β → α → Bool) (add : β → α → β) (mk : α → β) : β → List α → List β
  | tp, [] => [tp]
  | tp, r :: rs =>
    if same tp r then mergeFrom same add mk (add tp r) rs
    else tp :: mergeFrom same add mk (mk r) rs

/-- `mergeFrom` started from scratch on a (possibly empty) stream. -/
def mergeTail (same : β → α → Bool) (add : β → α → β) (mk : α → β) : List α → List β
  | [] => []
  | r :: rs => mergeFrom same add mk (mk r) rs

/-- The key comparison of the `readTables` loop (`tp` against a new row). -/
def sameT (tp : Table) (r : ColRow) : Bool := tp.Owner = r.owner ∧ tp.Name = r.tableName

/-- Appending the new row's column to the current table. -/
def addT (tp : Table) (r : ColRow) : Table :=
  { tp with Columns := tp.Columns ++ [rowColumn r] }

/-- The key comparison of the `readConstraints` loop. -/
def sameC (cp : Constraint) (r : ConsRow) : Bool := sameConsB (rowCons r) cp

/-- Appending the new row's column name to the current constraint. -/
def addC (cp : Constraint) (r : ConsRow) : Constraint :=
  { cp with tc := { cp.tc with Columns := cp.tc.Columns ++ [r.colName] } }

/-! ## Graph Assembler (`getTables`, `main.go:195-211`)

For each table, walk its constraint list (looked up under
`owner + "." + name`): `R`-constraints are appended to the table's
constraint list, the columns of `P`/`U` constraints are unioned into
the set `uCols`, and finally every column's `Unique` flag is set by
membership in `uCols` (the Go set is modelled as a list used only
through membership). -/

/-- One iteration of the constraint walk; the accumulator is
(`t.Constraints` so far, `uCols` so far). -/
def assembleStep (acc : List TableConstraint × List String) (c : Constraint) :
    List TableConstraint × List String :=
  if c.Typ = "R" then (acc.1 ++ [c.tc], acc.2)
  else if c.Typ = "P" ∨ c.Typ = "U" then (acc.1, acc.2 ++ c.tc.Columns)
  else acc

/-- The body of the assembly loop for one table. -/
def assembleTable (constraints : ConsMap) (t : Table) : Table :=
  let acc := (mapGet constraints (t.Owner ++ "." ++ t.Name)).foldl assembleStep (t.Constraints, [])
  { t with Constraints := acc.1
           Columns := t.Columns.map fun c => { c with Unique := decide (c.Name ∈ acc.2) } }

/-- `for i, t := range tables { ...; tables[i] = t }` -/
def assembleAll (constraints : ConsMap) (tables : List Table) : List Table :=
  tables.map (assembleTable constraints)

/-! ## Table Ranker/Grouper (`byRankSize`, `byNameGroup`, `main.go:504-545`) -/

/-- `byRankSize.Less` (`main.go:508-516`). -/
def byRankSizeLess (a b : Table) : Bool :=
  if a.Constraints.length < b.Constraints.length then true
  else if a.Constraints.length > b.Constraints.length then false
  else a.Columns.length < b.Columns.length

/-- `byNameGroup.Less` (`main.go:522-536`).  The second branch is the
source's literal `x[i].Owner > x[j].Owner` case, which also returns
`true`. -/
def byNameGroupLess (a b : Table) : Bool :=
  if strLt a.Owner b.Owner then true
  else if strLt b.Owner a.Owner then true
  else if strLt (grp a.Name) (grp b.Name) then true
  else if strLt (grp b.Name) (grp a.Name) then false
  else strLt a.Name b.Name

/-- The assembly-and-sort pipeline of `getTables` (`main.go:195-216`):
`sort.Sort(sort.Reverse(byRankSize(tables)))` then
`sort.Stable(byNameGroup(tables))`.  `sort.Reverse` swaps the
comparator's arguments.  `sort.Sort` is an unstable sort whose order
among `Less`-ties is unspecified; the model uses a deterministic sort
with the same comparator (one admissible outcome), and the claims
proved through it use only permutation facts.  `sort.Stable` is
specified stable, as `List.insertionSort` is. -/
def getTablesPure (constraints : ConsMap) (tables : List Table) : List Table :=
  List.insertionSort (fun a b => byNameGroupLess a b = true)
    (List.insertionSort (fun a b => byRankSizeLess b a = true)
      (assembleAll constraints tables))

/-- Specification side for C1: the column names appearing in some
`P`/`U` constraint of the given constraint list. -/
def puCols (cs : List Constraint) : List String :=
  (cs.filter fun c => c.Typ = "P" ∨ c.Typ = "U").flatMap (fun c => c.tc.Columns)

/-! ## Escaping and wrapping (stdlib / go-wordwrap models) -/

/-- Go `html.EscapeString`: the five significant characters, each a
single-character pattern, so the replacer maps characters
independently. -/
def htmlEscapeChar (c : Char) : List Char :=
  if c = '&' then ['&', 'a', 'm', 'p', ';']
  else if c = Char.ofNat 39 then ['&', '#', '3', '9', ';']
  else if c = '<' then ['&', 'l', 't', ';']
  else if c = '>' then ['&', 'g', 't', ';']
  else if c = '"' then ['&', '#', '3', '4', ';']
  else [c]

/-- Go `html.EscapeString`. -/
def htmlEscape (s : String) : String := ⟨s.data.flatMap htmlEscapeChar⟩

/-- Lower-case hexadecimal digits, as used by `strconv.Quote`. -/
def hexByte (n : Nat) : List Char :=
  ["0123456789abcdef".data.getD (n / 16) '0', "0123456789abcdef".data.getD (n % 16) '0']

/-- Go `%q` on one rune (`strconv.Quote`): the quote and the backslash
are backslash-escaped, control characters get their named escapes or
`\xhh`, printable characters are verbatim.  (Go additionally
hex-escapes unprintable characters above `0x7f`; no claim exercises
those.) -/
def goQuoteChar (c : Char) : List Char :=
  if c = '"' then ['\\', '"']
  else if c = '\\' then ['\\', '\\']
  else if c = '\x07' then ['\\', 'a']
  else if c = '\x08' then ['\\', 'b']
  else if c = '\x0c' then ['\\', 'f']
  else if c = '\n' then ['\\', 'n']
  else if c = '\r' then ['\\', 'r']
  else if c = '\t' then ['\\', 't']
  else if c = '\x0b' then ['\\', 'v']
  else if c.toNat < 32 ∨ c.toNat = 127 then '\\' :: 'x' :: hexByte c.toNat
  else [c]

/-- Go `fmt` verb `%q` on a string. -/
def goQuote (s : String) : String := ⟨'"' :: (s.data.flatMap goQuoteChar ++ ['"'])⟩

/-- The fold state of `go-wordwrap`'s `WrapString`: output buffer,
current line length, pending space run, pending word. -/
structure WrapState where
  buf : List Char
  current : Nat
  spaceBuf : List Char
  wordBuf : List Char
  deriving DecidableEq

/-- One rune of `go-wordwrap` v1.0.1 `WrapString` (the library counts
rune lengths; `List.length` is exactly that). -/
def wrapStep (lim : Nat) (st : WrapState) (c : Char) : WrapState :=
  if c = '\n' then
    if st.wordBuf = [] then
      let st1 :=
        if st.current + st.spaceBuf.length > lim then { st with current := 0 }
        else { st with current := st.current + st.spaceBuf.length, buf := st.buf ++ st.spaceBuf }
      { st1 with spaceBuf := [], buf := st1.buf ++ ['\n'], current := 0 }
    else
      { buf := st.buf ++ st.spaceBuf ++ st.wordBuf ++ ['\n'], current := 0
        spaceBuf := [], wordBuf := [] }
  else if isSpaceGo c ∧ c.toNat ≠ 160 then
    let st1 :=
      if st.spaceBuf = [] ∨ st.wordBuf ≠ [] then
        { buf := st.buf ++ st.spaceBuf ++ st.wordBuf
          current := st.current + st.spaceBuf.length + st.wordBuf.length
          spaceBuf := [], wordBuf := [] }
      else st
    { st1 with spaceBuf := st1.spaceBuf ++ [c] }
  else
    let st1 := { st with wordBuf := st.wordBuf ++ [c] }
    if st1.current + st1.wordBuf.length + st1.spaceBuf.length > lim ∧ st1.wordBuf.length < lim
    then { st1 with buf := st1.buf ++ ['\n'], current := 0, spaceBuf := [] }
    else st1

/-- `wordwrap.WrapString(s, lim)` (mitchellh/go-wordwrap v1.0.1). -/
def wrapString (s : String) (lim : Nat) : String :=
  let st := s.data.foldl (wrapStep lim) ⟨[], 0, [], []⟩
  if st.wordBuf = [] then
    if st.current + st.spaceBuf.length ≤ lim then ⟨st.buf ++ st.spaceBuf⟩ else ⟨st.buf⟩
  else ⟨st.buf ++ st.spaceBuf ++ st.wordBuf⟩

/-- `strings.Replace(s, "\n", "<BR/>\n", -1)` (single-character
pattern, so character-wise). -/
def nlToBR : List Char → List Char
  | [] => []
  | c :: cs => (if c = '\n' then ['<', 'B', 'R', '/', '>', '\n'] else [c]) ++ nlToBR cs

/-- The comment pipeline of the DOT node printer:
wrap, HTML-escape, newline → `<BR/>` + newline. -/
def commentDOT (s : String) (w : Nat) : String := ⟨nlToBR (htmlEscape (wrapString s w)).data⟩

/-! ## Box-diagram renderer (`PrintDOT`, `PrintNodeDOT`, `main.go:218-276`) -/

/-- One column row of the DOT node label
(`"<TR><TD PORT=%q ALIGN=\"LEFT\"%s>%s</TD><TD ALIGN=\"LEFT\">%s</TD><TD ALIGN=\"RIGHT\">%s</TD></TR>\n"`). -/
def colRowDOT (col : Column) : String :=
  "<TR><TD PORT=" ++ goQuote col.Name ++ " ALIGN=\"LEFT\""
    ++ (if col.Unique then " BGCOLOR=\"YELLOW\" " else "") ++ ">" ++ col.Name
    ++ "</TD><TD ALIGN=\"LEFT\">" ++ htmlEscape col.Typ
    ++ "</TD><TD ALIGN=\"RIGHT\">" ++ commentDOT col.Comment 25
    ++ "</TD></TR>\n"

/-- `func (t Table) PrintNodeDOT(w io.Writer)` (`main.go:259-276`). -/
def PrintNodeDOT (t : Table) : String :=
  "  " ++ name [t.Owner, t.Name]
    ++ " [pencolor=white shape=box label=<<TABLE ALIGN=\"LEFT\"><TR><TD ALIGN=\"CENTER\" COLSPAN=\"3\"><B>"
    ++ t.Owner ++ "." ++ t.Name ++ "</B></TD></TR> <TR><TD COLSPAN=\"3\">"
    ++ commentDOT t.Comment 40 ++ "</TD></TR>\n"
    ++ strCat (t.Columns.map colRowDOT)
    ++ "</TABLE>>];\n"

/-- The clustered node loop of `PrintDOT` (state: `prevGrp`); on exit a
pending cluster is closed. -/
def dotNodesLoop (prevGrp : String) : List Table → String
  | [] => if prevGrp ≠ "" then "\x7d\n" else ""
  | t :: ts =>
    let actGrp := grp t.Name
    if prevGrp = "" then
      ("subgraph cluster_" ++ actGrp ++ " \x7b\n") ++ PrintNodeDOT t ++ dotNodesLoop actGrp ts
    else if actGrp ≠ prevGrp then
      ("\x7d\nsubgraph cluster_" ++ actGrp ++ " \x7b\n") ++ PrintNodeDOT t ++ dotNodesLoop actGrp ts
    else PrintNodeDOT t ++ dotNodesLoop prevGrp ts

/-- The node section of `PrintDOT`. -/
def dotNodes (tables : List Table) : String := dotNodesLoop "" tables

/-- The edge-loop body of `PrintDOT` for one constraint: `col` is the
first local column or the zero value `""`; nothing is written when the
remote table is empty
(`"  %s:%s -> %s:%s [label=%q];\n"`). -/
def dotEdgeFor (t : Table) (c : TableConstraint) : String :=
  let col := c.Columns.headD ""
  if c.RemoteTable = "" then ""
  else
    "  " ++ name [t.Owner, t.Name] ++ ":" ++ col ++ " -> "
      ++ name [c.RemoteOwner, c.RemoteTable] ++ ":" ++ col
      ++ " [label=" ++ goQuote c.RemoteName ++ "];\n"

/-- The edge section of `PrintDOT`. -/
def dotEdges (tables : List Table) : String :=
  strCat (tables.map fun t => strCat (t.Constraints.map (dotEdgeFor t)))

/-- `func PrintDOT(w io.Writer, tables []Table) error` (`main.go:218-257`).
The model returns the written document; the Go function's error is the
writer's flush error, outside the model. -/
def PrintDOT (tables : List Table) : String :=
  "digraph \x7b\n" ++ dotNodes tables ++ dotEdges tables ++ "\n\x7d\n"

/-! ## Generic-graph renderer (`PrintGML`, `PrintNodeGML`, `main.go:278-311`) -/

/-- `func (t Table) PrintNodeGML(w io.Writer)` (`main.go:306-311`). -/
def PrintNodeGML (t : Table) : String :=
  "\tnode [\n\t\tid " ++ name [t.Owner, t.Name] ++ "\n\t\t"
    ++ htmlEscape (wrapString t.Comment 40) ++ "\n\t]\n"

/-- The edge-loop body of `PrintGML` for one constraint
(`"\tedge [\n\t\tsource %s:%s\n\t\ttarget %s:%s\n\t\tlabel %q\n\t]\n"`). -/
def gmlEdgeFor (t : Table) (c : TableConstraint) : String :=
  let col := c.Columns.headD ""
  if c.RemoteTable = "" then ""
  else
    "\tedge [\n\t\tsource " ++ name [t.Owner, t.Name] ++ ":" ++ col
      ++ "\n\t\ttarget " ++ name [c.RemoteOwner, c.RemoteTable] ++ ":" ++ col
      ++ "\n\t\tlabel " ++ goQuote c.RemoteName ++ "\n\t]\n"

/-- The edge section of `PrintGML`. -/
def gmlEdges (tables : List Table) : String :=
  strCat (tables.map fun t => strCat (t.Constraints.map (gmlEdgeFor t)))

/-- `func PrintGML(w io.Writer, tables []Table) error` (`main.go:278-304`). -/
def PrintGML (tables : List Table) : String :=
  "graph [\n" ++ strCat (tables.map PrintNodeGML) ++ gmlEdges tables ++ "]\n"

/-! ## XML-graph renderer (`PrintGraphML`, `main.go:313-352`)

The source of `PrintGraphML` is a line-for-line duplicate of
`PrintDOT` (it also calls `t.PrintNodeDOT`; the separate
`PrintNodeGraphML` printer at `main.go:354-371` is never called).  The
duplicate structure is reproduced here faithfully. -/

/-- The clustered node loop of `PrintGraphML` (calls `PrintNodeDOT`,
exactly as the source does). -/
def graphmlNodesLoop (prevGrp : String) : List Table → String
  | [] => if prevGrp ≠ "" then "\x7d\n" else ""
  | t :: ts =>
    let actGrp := grp t.Name
    if prevGrp = "" then
      ("subgraph cluster_" ++ actGrp ++ " \x7b\n") ++ PrintNodeDOT t ++ graphmlNodesLoop actGrp ts
    else if actGrp ≠ prevGrp then
      ("\x7d\nsubgraph cluster_" ++ actGrp ++ " \x7b\n") ++ PrintNodeDOT t ++ graphmlNodesLoop actGrp ts
    else PrintNodeDOT t ++ graphmlNodesLoop prevGrp ts

/-- The node section of `PrintGraphML`. -/
def graphmlNodes (tables : List Table) : String := graphmlNodesLoop "" tables

/-- The edge-loop body of `PrintGraphML` for one constraint (identical
to `PrintDOT`'s). -/
def graphmlEdgeFor (t : Table) (c : TableConstraint) : String :=
  let col := c.Columns.headD ""
  if c.RemoteTable = "" then ""
  else
    "  " ++ name [t.Owner, t.Name] ++ ":" ++ col ++ " -> "
      ++ name [c.RemoteOwner, c.RemoteTable] ++ ":" ++ col
      ++ " [label=" ++ goQuote c.RemoteName ++ "];\n"

/-- The edge section of `PrintGraphML`. -/
def graphmlEdges (tables : List Table) : String :=
  strCat (tables.map fun t => strCat (t.Constraints.map (graphmlEdgeFor t)))

/-- `func PrintGraphML(w io.Writer, tables []Table) error` (`main.go:313-352`). -/
def PrintGraphML (tables : List Table) : String :=
  "digraph \x7b\n" ++ graphmlNodes tables ++ graphmlEdges tables ++ "\n\x7d\n"

/-! ## Specification side for the edge claims (C6, C10) -/

/-- The (table, constraint) pairs that are rendered as edges: exactly
those with a non-empty remote table, in traversal order. -/
def edgePairs (tables : List Table) : List (Table × TableConstraint) :=
  (tables.flatMap fun t => t.Constraints.map fun c => (t, c)).filter
    fun p => p.2.RemoteTable ≠ ""

/-- An unconditional DOT edge statement, visibly using the first local
column name (`headD ""`) as the port on both sides. -/
def dotEdgeLine (t : Table) (c : TableConstraint) : String :=
  "  " ++ name [t.Owner, t.Name] ++ ":" ++ c.Columns.headD "" ++ " -> "
    ++ name [c.RemoteOwner, c.RemoteTable] ++ ":" ++ c.Columns.headD ""
    ++ " [label=" ++ goQuote c.RemoteName ++ "];\n"

/-- An unconditional GML edge record, visibly using the first local
column name (`headD ""`) as the port on both sides. -/
def gmlEdgeLine (t : Table) (c : TableConstraint) : String :=
  "\tedge [\n\t\tsource " ++ name [t.Owner, t.Name] ++ ":" ++ c.Columns.headD ""
    ++ "\n\t\ttarget " ++ name [c.RemoteOwner, c.RemoteTable] ++ ":" ++ c.Columns.headD ""
    ++ "\n\t\tlabel " ++ goQuote c.RemoteName ++ "\n\t]\n"

/-! ## JSON snapshot (`encoding/json` over the two records, `main.go:163-193`)

The snapshot is two consecutive self-describing records: the
constraint map, then the table list.  `encoding/json` is modelled at
the JSON-value level: `encodeSnapshot` is the value `json.Encoder`
writes (struct fields under their Go names, embedded `TableConstraint`
fields flattened, map keys sorted as `Marshal` sorts them, nil slices
as `null` — the only empty slices this program produces are nil), and
`decodeSnapshot` is what `json.Decoder` reconstructs from such values. -/

inductive JVal where
  | null : JVal
  | str : String → JVal
  | bool : Bool → JVal
  | arr : List JVal → JVal
  | obj : List (String × JVal) → JVal

/-- A `[]string` value (nil encodes as `null`). -/
def encodeStrList (l : List String) : JVal :=
  if l = [] then .null else .arr (l.map .str)

/-- A `TableConstraint` value. -/
def encodeTC (tc : TableConstraint) : JVal :=
  .obj [("Columns", encodeStrList tc.Columns), ("RemoteOwner", .str tc.RemoteOwner),
        ("RemoteTable", .str tc.RemoteTable), ("RemoteName", .str tc.RemoteName)]

/-- A `Column` value. -/
def encodeColumn (c : Column) : JVal :=
  .obj [("Name", .str c.Name), ("Type", .str c.Typ), ("Comment", .str c.Comment),
        ("Unique", .bool c.Unique)]

/-- A `Table` value. -/
def encodeTable (t : Table) : JVal :=
  .obj [("Owner", .str t.Owner), ("Name", .str t.Name), ("Comment", .str t.Comment),
        ("Columns", if t.Columns = [] then .null else .arr (t.Columns.map encodeColumn)),
        ("Constraints", if t.Constraints = [] then .null else .arr (t.Constraints.map encodeTC))]

/-- A `Constraint` value (embedded `TableConstraint` fields flattened). -/
def encodeConstraint (c : Constraint) : JVal :=
  .obj [("Owner", .str c.Owner), ("Name", .str c.Name), ("Type", .str c.Typ),
        ("Table", .str c.Table), ("Columns", encodeStrList c.tc.Columns),
        ("RemoteOwner", .str c.tc.RemoteOwner), ("RemoteTable", .str c.tc.RemoteTable),
        ("RemoteName", .str c.tc.RemoteName)]

/-- `json.Marshal` emits map entries with sorted keys. -/
def sortByKey (m : ConsMap) : ConsMap :=
  List.insertionSort (fun a b => strLt a.1 b.1 = true) m

/-- A `[]Constraint` map value (nil encodes as `null`). -/
def encodeConsList (l : List Constraint) : JVal :=
  if l = [] then .null else .arr (l.map encodeConstraint)

/-- The `map[string][]Constraint` record. -/
def encodeConstraintsMap (m : ConsMap) : JVal :=
  .obj ((sortByKey m).map fun kv => (kv.1, encodeConsList kv.2))

/-- The two consecutive records of the snapshot:
`enc.Encode(constraints); enc.Encode(tables)`. -/
def encodeSnapshot (m : ConsMap) (tables : List Table) : JVal × JVal :=
  (encodeConstraintsMap m,
   if tables = [] then .null else .arr (tables.map encodeTable))

/-- Object-field access of the decoder. -/
def objLookup : List (String × JVal) → String → Option JVal
  | [], _ => none
  | (k, v) :: f, k' => if k' = k then some v else objLookup f k'

/-- Element-wise decoding of a JSON array (fails when any element
fails). -/
def optMapM (g : α → Option β) : List α → Option (List β)
  | [] => some []
  | a :: l => do
    let b ← g a
    let bs ← optMapM g l
    pure (b :: bs)

def asStr : JVal → Option String
  | .str s => some s
  | _ => none

def asBool : JVal → Option Bool
  | .bool b => some b
  | _ => none

def decodeStrList : JVal → Option (List String)
  | .null => some []
  | .arr l => optMapM asStr l
  | _ => none

def decodeColumn : JVal → Option Column
  | .obj f => do
    let n ← (objLookup f "Name").bind asStr
    let ty ← (objLookup f "Type").bind asStr
    let cm ← (objLookup f "Comment").bind asStr
    let u ← (objLookup f "Unique").bind asBool
    pure { Name := n, Typ := ty, Comment := cm, Unique := u }
  | _ => none

def decodeTC : JVal → Option TableConstraint
  | .obj f => do
    let cols ← (objLookup f "Columns").bind decodeStrList
    let ro ← (objLookup f "RemoteOwner").bind asStr
    let rt ← (objLookup f "RemoteTable").bind asStr
    let rn ← (objLookup f "RemoteName").bind asStr
    pure { Columns := cols, RemoteOwner := ro, RemoteTable := rt, RemoteName := rn }
  | _ => none

def decodeColumns : JVal → Option (List Column)
  | .null => some []
  | .arr l => optMapM decodeColumn l
  | _ => none

def decodeTCs : JVal → Option (List TableConstraint)
  | .null => some []
  | .arr l => optMapM decodeTC l
  | _ => none

def decodeTable : JVal → Option Table
  | .obj f => do
    let o ← (objLookup f "Owner").bind asStr
    let n ← (objLookup f "Name").bind asStr
    let cm ← (objLookup f "Comment").bind asStr
    let cols ← (objLookup f "Columns").bind decodeColumns
    let cons ← (objLookup f "Constraints").bind decodeTCs
    pure { Owner := o, Name := n, Comment := cm, Columns := cols, Constraints := cons }
  | _ => none

def decodeConstraint : JVal → Option Constraint
  | .obj f => do
    let o ← (objLookup f "Owner").bind asStr
    let n ← (objLookup f "Name").bind asStr
    let ty ← (objLookup f "Type").bind asStr
    let tb ← (objLookup f "Table").bind asStr
    let cols ← (objLookup f "Columns").bind decodeStrList
    let ro ← (objLookup f "RemoteOwner").bind asStr
    let rt ← (objLookup f "RemoteTable").bind asStr
    let rn ← (objLookup f "RemoteName").bind asStr
    pure { Owner := o, Name := n, Typ := ty, Table := tb
           tc := { Columns := cols, RemoteOwner := ro, RemoteTable := rt, RemoteName := rn } }
  | _ => none

def decodeConsList : JVal → Option (List Constraint)
  | .null => some []
  | .arr l => optMapM decodeConstraint l
  | _ => none

def decodeConstraintsMap : JVal → Option ConsMap
  | .obj f => optMapM (fun kv => (decodeConsList kv.2).map fun l => (kv.1, l)) f
  | _ => none

def decodeTables : JVal → Option (List Table)
  | .null => some []
  | .arr l => optMapM decodeTable l
  | _ => none

/-- Decoding the two records back
(`dec.Decode(&constraints); dec.Decode(&tables)`). -/
def decodeSnapshot (p : JVal × JVal) : Option (ConsMap × List Table) := do
  let m ← decodeConstraintsMap p.1
  let ts ← decodeTables p.2
  pure (m, ts)

/-- Extensional equality of Go maps: every key reads the same value
(Go deep-equality of maps ignores internal order). -/
def consMapEquiv (a b : ConsMap) : Prop := ∀ k, mapGet a k = mapGet b k

/-! ## Specification side of the group key (C8) -/

/-- The group key described by indexed search: the first `SplitN`
part at index ≥ 1 longer than 2 characters, else the whole name. -/
def grpSpec (s : String) : String :=
  match ((splitNChar '_' 3 s.data).enum.find? fun p =>
      decide (1 ≤ p.1 ∧ 2 < p.2.length)).map Prod.snd with
  | some part => ⟨part⟩
  | none => s

/-! ## Concrete sample data for witnesses and counterexamples -/

/-- C1 witness input: one table, one primary-key constraint on `A`. -/
def t0W : Table :=
  { Owner := "O", Name := "T", Comment := ""
    Columns := [{ Name := "A", Typ := "NUMBER", Comment := "", Unique := false },
                { Name := "B", Typ := "DATE", Comment := "", Unique := false }]
    Constraints := [] }

def pconW : Constraint :=
  { Owner := "O", Name := "T_PK", Typ := "P", Table := "T"
    tc := { Columns := ["A"], RemoteOwner := "", RemoteTable := "", RemoteName := "" } }

def cmW : ConsMap := [("O.T", [pconW])]

/-- The assembled table produced from `t0W` under `cmW`. -/
def tW : Table :=
  { Owner := "O", Name := "T", Comment := ""
    Columns := [{ Name := "A", Typ := "NUMBER", Comment := "", Unique := true },
                { Name := "B", Typ := "DATE", Comment := "", Unique := false }]
    Constraints := [] }

def colW : Column := { Name := "A", Typ := "NUMBER", Comment := "", Unique := true }

/-- C2 witness input: two key-runs of column rows. -/
def rowsW : List ColRow :=
  [{ owner := "O", tableName := "T1", colName := "A", colType := "N"
     tabComment := " tc ", colComment := "a" },
   { owner := "O", tableName := "T1", colName := "B", colType := "D"
     tabComment := " tc ", colComment := "b" },
   { owner := "O", tableName := "T2", colName := "C", colType := "V"
     tabComment := "", colComment := "" }]

/-- C2 witness input: one two-row constraint run. -/
def crowsW : List ConsRow :=
  [{ owner := "O", consName := "FK1", consType := "R", tableName := "T1", colName := "A"
     remoteOwner := "O", remoteTable := "T2", remoteName := "PK2" },
   { owner := "O", consName := "FK1", consType := "R", tableName := "T1", colName := "B"
     remoteOwner := "O", remoteTable := "T2", remoteName := "PK2" }]

/-- C2 counterexample input: a row whose table name is empty, the
merger's sentinel value. -/
def badRowT : ColRow :=
  { owner := "O", tableName := "", colName := "A", colType := "N"
    tabComment := "", colComment := "" }

/-- C3 failing input: two tables that differ only in owner. -/
def tAW : Table := { Owner := "A", Name := "T", Comment := "", Columns := [], Constraints := [] }

def tBW : Table := { Owner := "B", Name := "T", Comment := "", Columns := [], Constraints := [] }

/-- C5 counterexample input: comments and a constraint label with
characters that the HTML/DOT and XML grammars escape differently. -/
def xTableW : Table :=
  { Owner := "O", Name := "A_TABLE", Comment := "a < b & c"
    Columns := [{ Name := "COL", Typ := "VARCHAR2(10)", Comment := "x > y", Unique := true }]
    Constraints := [{ Columns := ["COL"], RemoteOwner := "O", RemoteTable := "A_TABLE"
                      RemoteName := "a\"b" }] }

/-- C7 witness input: a two-key map whose keys are not sorted. -/
def conJ1 : Constraint :=
  { Owner := "B", Name := "C1", Typ := "R", Table := "T1"
    tc := { Columns := ["X", "Y"], RemoteOwner := "A", RemoteTable := "T2", RemoteName := "PK" } }

def conJ2 : Constraint :=
  { Owner := "A", Name := "C2", Typ := "U", Table := "T2"
    tc := { Columns := ["Z"], RemoteOwner := "", RemoteTable := "", RemoteName := "" } }

def cmJ : ConsMap := [("B.T1", [conJ1]), ("A.T2", [conJ2])]

def tablesJ : List Table :=
  [{ Owner := "A", Name := "T2", Comment := "c"
     Columns := [{ Name := "Z", Typ := "N", Comment := "", Unique := false }]
     Constraints := [] }]

/-- C9 witness input: one table whose only constraint has an empty
remote table (a merged P/U constraint, never an edge). -/
def tableEW : Table :=
  { Owner := "O", Name := "T", Comment := "", Columns := []
    Constraints := [{ Columns := ["A"], RemoteOwner := "", RemoteTable := "", RemoteName := "" }] }

/-- C10 witness input: a constraint with an empty local column list
and a non-empty remote table. -/
def tPW : Table := { Owner := "O", Name := "T", Comment := "", Columns := [], Constraints := [] }

def cPW : TableConstraint :=
  { Columns := [], RemoteOwner := "R", RemoteTable := "RT", RemoteName := "RC" }

/-! ## Supporting lemmas: run grouping -/

theorem runsBy_go_eq (p : α → α → Bool) (cur : α) (acc : List α) (bs : List α) :
    runsBy.go p cur acc bs
      = (acc.reverse ++ bs.takeWhile (p cur)) :: runsBy p (bs.dropWhile (p cur)) := by
  induction bs generalizing acc with
  | nil => simp [runsBy.go, runsBy]
  | cons b bs ih =>
    by_cases h : p cur b
    · simp [runsBy.go, h, List.takeWhile, List.dropWhile, ih]
    · simp only [runsBy.go, h, Bool.false_eq_true, if_false]
      simp [List.takeWhile, List.dropWhile, h, runsBy]

theorem runsBy_cons (p : α → α → Bool) (r : α) (rs : List α) :
    runsBy p (r :: rs)
      = (r :: rs.takeWhile (p r)) :: runsBy p (rs.dropWhile (p r)) := by
  show runsBy.go p r [r] rs = _
  rw [runsBy_go_eq]
  rfl

theorem dropWhile_len_le (p : α → Bool) (l : List α) : (l.dropWhile p).length ≤ l.length := by
  induction l with
  | nil => simp
  | cons a l ih =>
    by_cases h : p a
    · simp only [List.dropWhile, h, if_pos]
      exact Nat.le_succ_of_le ih
    · simp [List.dropWhile, h]

theorem mergeFrom_eq (same : β → α → Bool) (add : β → α → β) (mk : α → β)
    (hsame : ∀ b r r', same (add b r) r' = same b r') (tp : β) (rows : List α) :
    mergeFrom same add mk tp rows
      = (rows.takeWhile (same tp)).foldl add tp
          :: mergeTail same add mk (rows.dropWhile (same tp)) := by
  induction rows generalizing tp with
  | nil => simp [mergeFrom, mergeTail]
  | cons r rs ih =>
    by_cases h : same tp r
    · have hfun : same (add tp r) = same tp := funext fun r' => hsame tp r r'
      simp [mergeFrom, h, List.takeWhile, List.dropWhile, ih, hfun]
    · simp [mergeFrom, h, List.takeWhile, List.dropWhile, mergeTail]

/-! ## Supporting lemmas: the table merger -/

theorem sameT_addT (tp : Table) (r r' : ColRow) : sameT (addT tp r) r' = sameT tp r' := rfl

theorem sameT_rowTable (r : ColRow) : sameT (rowTable r) = sameRowT r := rfl

theorem foldl_addT (l : List ColRow) (t : Table) :
    l.foldl addT t = { t with Columns := t.Columns ++ l.map rowColumn } := by
  induction l generalizing t with
  | nil => simp
  | cons r rs ih => simp [addT, ih]

theorem readTablesLoop_eq :
    ∀ (rows : List ColRow) (tables : List Table) (tp : Table),
      tp.Name ≠ "" → (∀ r ∈ rows, r.tableName ≠ "") →
      readTablesLoop tables tp rows = tables ++ mergeFrom sameT addT rowTable tp rows := by
  intro rows
  induction rows with
  | nil =>
    intro tables tp htp _
    simp [readTablesLoop, mergeFrom, htp]
  | cons r rs ih =>
    intro tables tp htp hrows
    have hr : r.tableName ≠ "" := hrows r (List.mem_cons_self r rs)
    have hrs : ∀ x ∈ rs, x.tableName ≠ "" := fun x hx => hrows x (List.mem_cons_of_mem r hx)
    by_cases h : tp.Owner = r.owner ∧ tp.Name = r.tableName
    · have hs : sameT tp r = true := by simp [sameT, h.1, h.2]
      have hP : tp.Owner = (rowTable r).Owner ∧ tp.Name = (rowTable r).Name := h
      calc readTablesLoop tables tp (r :: rs)
          = readTablesLoop tables (addT tp r) rs := by
            simp only [readTablesLoop, if_neg htp, if_neg (not_not_intro hP)]
            rfl
        _ = tables ++ mergeFrom sameT addT rowTable (addT tp r) rs := ih tables _ htp hrs
        _ = tables ++ mergeFrom sameT addT rowTable tp (r :: rs) := by
            simp [mergeFrom, hs]
    · have hs : ¬(sameT tp r = true) := by
        simp [sameT]
        intro h1 h2
        exact h ⟨h1, h2⟩
      have hP : ¬(tp.Owner = (rowTable r).Owner ∧ tp.Name = (rowTable r).Name) := h
      calc readTablesLoop tables tp (r :: rs)
          = readTablesLoop (tables ++ [tp]) (rowTable r) rs := by
            simp only [readTablesLoop, if_neg htp, if_pos hP]
        _ = (tables ++ [tp]) ++ mergeFrom sameT addT rowTable (rowTable r) rs := by
            refine ih (tables ++ [tp]) (rowTable r) ?_ hrs
            simpa [rowTable] using hr
        _ = tables ++ mergeFrom sameT addT rowTable tp (r :: rs) := by
            simp [mergeFrom, hs]

theorem mergeTail_T_eq :
    ∀ (n : Nat) (rows : List ColRow), rows.length ≤ n →
      mergeTail sameT addT rowTable rows = groupRunsT rows := by
  intro n
  induction n with
  | zero =>
    intro rows h
    have : rows = [] := List.length_eq_zero.mp (Nat.le_zero.mp h)
    subst this
    rfl
  | succ n ih =>
    intro rows h
    match rows with
    | [] => rfl
    | r :: rs =>
      have hlen : (rs.dropWhile (sameRowT r)).length ≤ n := by
        have h1 := dropWhile_len_le (sameRowT r) rs
        have h2 : rs.length ≤ n := by simpa using Nat.le_of_succ_le_succ (by simpa using h)
        omega
      calc mergeTail sameT addT rowTable (r :: rs)
          = mergeFrom sameT addT rowTable (rowTable r) rs := rfl
        _ = (rs.takeWhile (sameRowT r)).foldl addT (rowTable r)
              :: mergeTail sameT addT rowTable (rs.dropWhile (sameRowT r)) := by
            rw [mergeFrom_eq sameT addT rowTable sameT_addT, sameT_rowTable]
        _ = entityT (r :: rs.takeWhile (sameRowT r))
              :: groupRunsT (rs.dropWhile (sameRowT r)) := by
            rw [ih _ hlen, foldl_addT]
            simp [rowTable, entityT]
        _ = groupRunsT (r :: rs) := by
            simp [groupRunsT, runsBy_cons]

theorem readTables_eq (rows : List ColRow) (h : ∀ r ∈ rows, r.tableName ≠ "") :
    readTables rows = groupRunsT rows := by
  match rows with
  | [] => rfl
  | r :: rs =>
    have hr : (rowTable r).Name ≠ "" := h r (List.mem_cons_self r rs)
    have hrs : ∀ x ∈ rs, x.tableName ≠ "" := fun x hx => h x (List.mem_cons_of_mem r hx)
    calc readTables (r :: rs)
        = readTablesLoop [] (rowTable r) rs := rfl
      _ = [] ++ mergeFrom sameT addT rowTable (rowTable r) rs :=
          readTablesLoop_eq rs [] (rowTable r) hr hrs
      _ = mergeTail sameT addT rowTable (r :: rs) := by simp [mergeTail]
      _ = groupRunsT (r :: rs) := mergeTail_T_eq (r :: rs).length _ (Nat.le_refl _)

/-! ## Supporting lemmas: the constraint merger -/

theorem sameC_addC (cp : Constraint) (r r' : ConsRow) : sameC (addC cp r) r' = sameC cp r' := rfl

theorem sameC_rowCons (r : ConsRow) : sameC (rowCons r) = sameRowC r := rfl

theorem foldl_addC (l : List ConsRow) (c : Constraint) :
    l.foldl addC c
      = { c with tc := { c.tc with Columns := c.tc.Columns ++ l.map (·.colName) } } := by
  induction l generalizing c with
  | nil => simp
  | cons r rs ih => simp [addC, ih]

theorem readConstraintsLoop_eq :
    ∀ (rows : List ConsRow) (m : ConsMap) (cp : Constraint),
      cp.Name ≠ "" → (∀ r ∈ rows, r.consName ≠ "") →
      readConstraintsLoop m cp rows
        = buildConsMapFrom m (mergeFrom sameC addC rowCons cp rows) := by
  intro rows
  induction rows with
  | nil =>
    intro m cp hcp _
    simp [readConstraintsLoop, mergeFrom, buildConsMapFrom, hcp]
  | cons r rs ih =>
    intro m cp hcp hrows
    have hr : r.consName ≠ "" := hrows r (List.mem_cons_self r rs)
    have hrs : ∀ x ∈ rs, x.consName ≠ "" := fun x hx => hrows x (List.mem_cons_of_mem r hx)
    by_cases h : sameConsB (rowCons r) cp = true
    · calc readConstraintsLoop m cp (r :: rs)
          = readConstraintsLoop m (addC cp r) rs := by
            simp only [readConstraintsLoop, if_neg hcp, if_neg (not_not_intro h)]
            rfl
        _ = buildConsMapFrom m (mergeFrom sameC addC rowCons (addC cp r) rs) := ih m _ hcp hrs
        _ = buildConsMapFrom m (mergeFrom sameC addC rowCons cp (r :: rs)) := by
            have hs : sameC cp r = true := h
            simp [mergeFrom, hs]
    · calc readConstraintsLoop m cp (r :: rs)
          = readConstraintsLoop (mapAppend m (consKey cp) cp) (rowCons r) rs := by
            simp only [readConstraintsLoop, if_neg hcp, if_pos h]
        _ = buildConsMapFrom (mapAppend m (consKey cp) cp)
              (mergeFrom sameC addC rowCons (rowCons r) rs) := by
            refine ih _ (rowCons r) ?_ hrs
            simpa [rowCons] using hr
        _ = buildConsMapFrom m (mergeFrom sameC addC rowCons cp (r :: rs)) := by
            have hs : ¬(sameC cp r = true) := h
            simp [mergeFrom, hs, buildConsMapFrom]

theorem mergeTail_C_eq :
    ∀ (n : Nat) (rows : List ConsRow), rows.length ≤ n →
      mergeTail sameC addC rowCons rows = groupRunsC rows := by
  intro n
  induction n with
  | zero =>
    intro rows h
    have : rows = [] := List.length_eq_zero.mp (Nat.le_zero.mp h)
    subst this
    rfl
  | succ n ih =>
    intro rows h
    match rows with
    | [] => rfl
    | r :: rs =>
      have hlen : (rs.dropWhile (sameRowC r)).length ≤ n := by
        have h1 := dropWhile_len_le (sameRowC r) rs
        have h2 : rs.length ≤ n := by simpa using Nat.le_of_succ_le_succ (by simpa using h)
        omega
      calc mergeTail sameC addC rowCons (r :: rs)
          = mergeFrom sameC addC rowCons (rowCons r) rs := rfl
        _ = (rs.takeWhile (sameRowC r)).foldl addC (rowCons r)
              :: mergeTail sameC addC rowCons (rs.dropWhile (sameRowC r)) := by
            rw [mergeFrom_eq sameC addC rowCons sameC_addC, sameC_rowCons]
        _ = entityC (r :: rs.takeWhile (sameRowC r))
              :: groupRunsC (rs.dropWhile (sameRowC r)) := by
            rw [ih _ hlen, foldl_addC]
            simp [rowCons, entityC]
        _ = groupRunsC (r :: rs) := by
            simp [groupRunsC, runsBy_cons]

theorem readConstraints_eq (rows : List ConsRow) (h : ∀ r ∈ rows, r.consName ≠ "") :
    readConstraints rows = buildConsMap (groupRunsC rows) := by
  match rows with
  | [] => rfl
  | r :: rs =>
    have hr : (rowCons r).Name ≠ "" := h r (List.mem_cons_self r rs)
    have hrs : ∀ x ∈ rs, x.consName ≠ "" := fun x hx => h x (List.mem_cons_of_mem r hx)
    calc readConstraints (r :: rs)
        = readConstraintsLoop [] (rowCons r) rs := rfl
      _ = buildConsMapFrom [] (mergeFrom sameC addC rowCons (rowCons r) rs) :=
          readConstraintsLoop_eq rs [] (rowCons r) hr hrs
      _ = buildConsMap (mergeTail sameC addC rowCons (r :: rs)) := by
          simp [buildConsMap, mergeTail]
      _ = buildConsMap (groupRunsC (r :: rs)) := by
          rw [mergeTail_C_eq (r :: rs).length _ (Nat.le_refl _)]

/-! ## Supporting lemmas: assembly -/

theorem assembleStep_fold (cs : List Constraint) (init : List TableConstraint × List String) :
    cs.foldl assembleStep init
      = (init.1 ++ (cs.filter fun c => c.Typ = "R").map (fun c => c.tc),
         init.2 ++ puCols cs) := by
  induction cs generalizing init with
  | nil => simp [puCols]
  | cons c cs ih =>
    by_cases hR : c.Typ = "R"
    · simp [assembleStep, hR, ih, puCols, List.filter_cons]
    · by_cases hPU : c.Typ = "P" ∨ c.Typ = "U"
      · simp [assembleStep, hR, hPU, ih, puCols, List.filter_cons]
      · simp [assembleStep, hR, hPU, ih, puCols, List.filter_cons]

/-! ## Supporting lemmas: string concatenation and renderers -/

theorem empty_append_str (s : String) : "" ++ s = s := by
  cases s
  rfl

theorem strCat_append (a b : List String) : strCat (a ++ b) = strCat a ++ strCat b := by
  induction a with
  | nil => simp [strCat, empty_append_str]
  | cons s l ih => simp [strCat, ih, String.append_assoc]

theorem dotEdgeFor_filter (t : Table) (cs : List TableConstraint) :
    strCat (cs.map (dotEdgeFor t))
      = strCat ((cs.filter fun c => c.RemoteTable ≠ "").map (dotEdgeLine t)) := by
  induction cs with
  | nil => rfl
  | cons c cs ih =>
    by_cases h : c.RemoteTable = ""
    · simp [strCat, dotEdgeFor, h, List.filter_cons, ih, empty_append_str]
    · simp [strCat, dotEdgeFor, dotEdgeLine, h, List.filter_cons, ih]

theorem gmlEdgeFor_filter (t : Table) (cs : List TableConstraint) :
    strCat (cs.map (gmlEdgeFor t))
      = strCat ((cs.filter fun c => c.RemoteTable ≠ "").map (gmlEdgeLine t)) := by
  induction cs with
  | nil => rfl
  | cons c cs ih =>
    by_cases h : c.RemoteTable = ""
    · simp [strCat, gmlEdgeFor, h, List.filter_cons, ih, empty_append_str]
    · simp [strCat, gmlEdgeFor, gmlEdgeLine, h, List.filter_cons, ih]

theorem edgePairs_cons (t : Table) (ts : List Table) :
    edgePairs (t :: ts)
      = ((t.Constraints.filter fun c => c.RemoteTable ≠ "").map fun c => (t, c))
          ++ edgePairs ts := by
  simp [edgePairs, List.filter_append, List.filter_map]
  rfl

theorem dotEdges_spec (tables : List Table) :
    dotEdges tables = strCat ((edgePairs tables).map fun p => dotEdgeLine p.1 p.2) := by
  induction tables with
  | nil => rfl
  | cons t ts ih =>
    calc dotEdges (t :: ts)
        = strCat (t.Constraints.map (dotEdgeFor t)) ++ dotEdges ts := rfl
      _ = strCat ((t.Constraints.filter fun c => c.RemoteTable ≠ "").map (dotEdgeLine t))
            ++ strCat ((edgePairs ts).map fun p => dotEdgeLine p.1 p.2) := by
          rw [dotEdgeFor_filter, ih]
      _ = strCat ((edgePairs (t :: ts)).map fun p => dotEdgeLine p.1 p.2) := by
          rw [edgePairs_cons]
          rw [List.map_append, strCat_append, List.map_map]
          rfl

theorem gmlEdges_spec (tables : List Table) :
    gmlEdges tables = strCat ((edgePairs tables).map fun p => gmlEdgeLine p.1 p.2) := by
  induction tables with
  | nil => rfl
  | cons t ts ih =>
    calc gmlEdges (t :: ts)
        = strCat (t.Constraints.map (gmlEdgeFor t)) ++ gmlEdges ts := rfl
      _ = strCat ((t.Constraints.filter fun c => c.RemoteTable ≠ "").map (gmlEdgeLine t))
            ++ strCat ((edgePairs ts).map fun p => gmlEdgeLine p.1 p.2) := by
          rw [gmlEdgeFor_filter, ih]
      _ = strCat ((edgePairs (t :: ts)).map fun p => gmlEdgeLine p.1 p.2) := by
          rw [edgePairs_cons]
          rw [List.map_append, strCat_append, List.map_map]
          rfl

theorem graphmlNodesLoop_eq (ts : List Table) :
    ∀ prevGrp, graphmlNodesLoop prevGrp ts = dotNodesLoop prevGrp ts := by
  induction ts with
  | nil => intro p; rfl
  | cons t ts ih =>
    intro p
    simp only [graphmlNodesLoop, dotNodesLoop, ih]

theorem graphmlEdges_eq_dot (tables : List Table) : graphmlEdges tables = dotEdges tables := rfl

theorem PrintGraphML_eq_PrintDOT (tables : List Table) :
    PrintGraphML tables = PrintDOT tables := by
  simp only [PrintGraphML, PrintDOT, graphmlNodes, dotNodes, graphmlNodesLoop_eq,
    graphmlEdges_eq_dot]

theorem edgePairs_nil_of_empty_remotes (tables : List Table)
    (h : ∀ t ∈ tables, ∀ c ∈ t.Constraints, c.RemoteTable = "") :
    edgePairs tables = [] := by
  rw [edgePairs, List.filter_eq_nil_iff]
  intro p hp
  rw [List.mem_flatMap] at hp
  obtain ⟨t, ht, hp⟩ := hp
  rw [List.mem_map] at hp
  obtain ⟨c, hc, rfl⟩ := hp
  simp [h t ht c hc]

/-! ## Supporting lemmas: identifier normalisation -/

theorem replDotL_append (a b : List Char) : replDotL (a ++ b) = replDotL a ++ replDotL b := by
  induction a with
  | nil => rfl
  | cons c cs ih => simp [replDotL, ih]

theorem replDotL_id (a : List Char) (h : ∀ c ∈ a, c ≠ '.' ∧ c ≠ '$') : replDotL a = a := by
  induction a with
  | nil => rfl
  | cons c cs ih =>
    have hc := h c (List.mem_cons_self c cs)
    have ihh := ih fun x hx => h x (List.mem_cons_of_mem c hx)
    simp [replDotL, hc.1, hc.2, ihh]

theorem append_uu_inj (a : List Char) :
    ∀ (c b d : List Char), (∀ x ∈ a, x ≠ '_') → (∀ x ∈ c, x ≠ '_') →
      a ++ '_' :: '_' :: b = c ++ '_' :: '_' :: d → a = c ∧ b = d := by
  induction a with
  | nil =>
    intro c b d _ hc h
    match c with
    | [] => simpa using h
    | x :: c' =>
      exfalso
      have hx : x = '_' := by
        have := congrArg (fun l => l.headD ' ') h
        simpa using this.symm
      exact hc x (List.mem_cons_self x c') hx
  | cons y a' ih =>
    intro c b d ha hc h
    match c with
    | [] =>
      exfalso
      have hy : y = '_' := by
        have := congrArg (fun l => l.headD ' ') h
        simpa using this
      exact ha y (List.mem_cons_self y a') hy
    | x :: c' =>
      rw [List.cons_append, List.cons_append, List.cons.injEq] at h
      obtain ⟨h1, h2⟩ := h
      have := ih c' b d (fun z hz => ha z (List.mem_cons_of_mem y hz))
        (fun z hz => hc z (List.mem_cons_of_mem x hz)) h2
      exact ⟨by rw [h1, this.1], this.2⟩

theorem name_two (o n : String) :
    name [o, n] = ⟨replDotL (o.data ++ '_' :: '_' :: n.data)⟩ := by
  have h : (o.data ++ Dot) ++ n.data = o.data ++ '_' :: '_' :: n.data := by
    rw [List.append_assoc]
    rfl
  show (⟨replDotL ((o.data ++ Dot) ++ n.data)⟩ : String) = _
  rw [h]

/-! ## Supporting lemmas: group key -/

theorem grpLoop_find (ps : List (List Char)) :
    ∀ i, grpLoop i ps
      = ((List.enumFrom i ps).find? fun p => decide (1 ≤ p.1 ∧ 2 < p.2.length)).map Prod.snd := by
  induction ps with
  | nil => intro i; rfl
  | cons p ps ih =>
    intro i
    by_cases h : 1 ≤ i ∧ 2 < p.length
    · simp [grpLoop, List.enumFrom, List.find?, h]
    · simp [grpLoop, List.enumFrom, List.find?, h, ih]

theorem splitNChar_len (c : Char) : ∀ (n : Nat) (s : List Char), 1 ≤ n →
    (splitNChar c n s).length ≤ n := by
  intro n
  induction n with
  | zero => intro s h; omega
  | succ n ih =>
    intro s _
    match n with
    | 0 => simp [splitNChar]
    | m + 1 =>
      show (splitNChar c (m + 2) s).length ≤ m + 2
      rw [splitNChar]
      match breakAtChar c s with
      | none => simp
      | some (pre, post) =>
        have := ih post (by omega)
        simpa using Nat.succ_le_succ this

/-! ## Supporting lemmas: JSON round trip -/

theorem mapM_inv {γ : Type} {α : Type} (f : α → γ) (g : γ → Option α) (l : List α)
    (h : ∀ x ∈ l, g (f x) = some x) : optMapM g (l.map f) = some l := by
  induction l with
  | nil => rfl
  | cons x xs ih =>
    have hx := h x (List.mem_cons_self x xs)
    have hxs := ih fun y hy => h y (List.mem_cons_of_mem x hy)
    simp [optMapM, hx, hxs]

theorem decodeStrList_enc (l : List String) : decodeStrList (encodeStrList l) = some l := by
  match l with
  | [] => rfl
  | s :: ls =>
    rw [encodeStrList, if_neg (by simp)]
    exact mapM_inv _ _ _ (fun x _ => rfl)

theorem decodeColumn_enc (c : Column) : decodeColumn (encodeColumn c) = some c := by
  simp [decodeColumn, encodeColumn, objLookup, asStr, asBool]

theorem decodeTC_enc (tc : TableConstraint) : decodeTC (encodeTC tc) = some tc := by
  simp [decodeTC, encodeTC, objLookup, asStr, decodeStrList_enc]

theorem decodeColumns_enc (l : List Column) :
    decodeColumns (if l = [] then .null else .arr (l.map encodeColumn)) = some l := by
  match l with
  | [] => rfl
  | c :: cs =>
    rw [if_neg (by simp)]
    exact mapM_inv _ _ _ (fun x _ => decodeColumn_enc x)

theorem decodeTCs_enc (l : List TableConstraint) :
    decodeTCs (if l = [] then .null else .arr (l.map encodeTC)) = some l := by
  match l with
  | [] => rfl
  | c :: cs =>
    rw [if_neg (by simp)]
    exact mapM_inv _ _ _ (fun x _ => decodeTC_enc x)

theorem decodeTable_enc (t : Table) : decodeTable (encodeTable t) = some t := by
  simp [decodeTable, encodeTable, objLookup, asStr, decodeColumns_enc, decodeTCs_enc]

theorem decodeConstraint_enc (c : Constraint) : decodeConstraint (encodeConstraint c) = some c := by
  simp [decodeConstraint, encodeConstraint, objLookup, asStr, decodeStrList_enc]

theorem decodeConsList_enc (l : List Constraint) : decodeConsList (encodeConsList l) = some l := by
  match l with
  | [] => rfl
  | c :: cs =>
    rw [encodeConsList, if_neg (by simp)]
    exact mapM_inv _ _ _ (fun x _ => decodeConstraint_enc x)

theorem decodeConstraintsMap_enc (m : ConsMap) :
    decodeConstraintsMap (encodeConstraintsMap m) = some (sortByKey m) := by
  rw [encodeConstraintsMap]
  show optMapM (fun kv => (decodeConsList kv.2).map fun l => (kv.1, l))
      ((sortByKey m).map fun kv => (kv.1, encodeConsList kv.2)) = some (sortByKey m)
  exact mapM_inv _ _ _ (fun kv _ => by simp [decodeConsList_enc kv.2])

theorem decodeTables_enc (tables : List Table) :
    decodeTables (if tables = [] then .null else .arr (tables.map encodeTable)) = some tables := by
  match tables with
  | [] => rfl
  | t :: ts =>
    rw [if_neg (by simp)]
    exact mapM_inv _ _ _ (fun x _ => decodeTable_enc x)

theorem decodeSnapshot_enc (m : ConsMap) (tables : List Table) :
    decodeSnapshot (encodeSnapshot m tables) = some (sortByKey m, tables) := by
  simp [decodeSnapshot, encodeSnapshot, decodeConstraintsMap_enc, decodeTables_enc]

theorem lookupA_perm :
    ∀ (m1 m2 : ConsMap), List.Perm m1 m2 → (m1.map Prod.fst).Nodup →
      ∀ k, lookupA m1 k = lookupA m2 k := by
  intro m1 m2 h
  induction h with
  | nil => intro _ _; rfl
  | cons x h ih =>
    intro hnd k
    obtain ⟨kx, vx⟩ := x
    by_cases hk : k = kx
    · simp [lookupA, hk]
    · simp only [lookupA, if_neg hk]
      refine ih ?_ k
      simpa using (List.nodup_cons.mp (by simpa using hnd)).2
  | swap x y l =>
    intro hnd k
    obtain ⟨kx, vx⟩ := x
    obtain ⟨ky, vy⟩ := y
    have h0 : (ky :: kx :: List.map Prod.fst l).Nodup := by simpa using hnd
    have h1 : ky ∉ (kx :: List.map Prod.fst l) := (List.nodup_cons.mp h0).1
    have hyx : ky ≠ kx := fun he => h1 (by simp [he])
    by_cases hk1 : k = ky
    · simp [lookupA, hk1, hyx, Ne.symm hyx]
    · by_cases hk2 : k = kx
      · simp [lookupA, hk1, hk2, hyx, Ne.symm hyx]
      · simp [lookupA, hk1, hk2]
  | trans h1 h2 ih1 ih2 =>
    intro hnd k
    exact (ih1 hnd k).trans (ih2 ((h1.map Prod.fst).nodup hnd) k)

theorem sortByKey_perm (m : ConsMap) : List.Perm (sortByKey m) m :=
  List.perm_insertionSort _ m

theorem mapGet_sortByKey (m : ConsMap) (hnd : (m.map Prod.fst).Nodup) (k : String) :
    mapGet (sortByKey m) k = mapGet m k := by
  have hnd' : ((sortByKey m).map Prod.fst).Nodup :=
    (((sortByKey_perm m).symm).map Prod.fst).nodup hnd
  rw [mapGet, mapGet, lookupA_perm (sortByKey m) m (sortByKey_perm m) hnd' k]

theorem append_empty_str (s : String) : s ++ "" = s := by
  cases s with
  | mk data =>
    show String.mk (data ++ []) = String.mk data
    rw [List.append_nil]

/-! ## Claims -/

/-- C1: for every table of the assembled output (the two sort passes
only permute the list), a column's `Unique` flag is true iff its name
appears in the column list of some constraint of type `P` or `U`
stored under the key `owner + "." + name` of that table; the flag is
computed in the single assembly pass and not changed afterwards. -/
theorem C1_unique_flag_iff (constraints : ConsMap) (tables : List Table)
    (t : Table) (ht : t ∈ getTablesPure constraints tables)
    (c : Column) (hc : c ∈ t.Columns) :
    c.Unique = true ↔ c.Name ∈ puCols (mapGet constraints (t.Owner ++ "." ++ t.Name)) := by
  have hp1 := List.perm_insertionSort (fun a b => byNameGroupLess a b = true)
    (List.insertionSort (fun a b => byRankSizeLess b a = true) (assembleAll constraints tables))
  have hp2 := List.perm_insertionSort (fun a b => byRankSizeLess b a = true)
    (assembleAll constraints tables)
  have hmem : t ∈ assembleAll constraints tables := hp2.mem_iff.mp (hp1.mem_iff.mp ht)
  rw [assembleAll, List.mem_map] at hmem
  obtain ⟨t0, ht0, rfl⟩ := hmem
  simp only [assembleTable] at hc ⊢
  rw [List.mem_map] at hc
  obtain ⟨c0, hc0, rfl⟩ := hc
  rw [assembleStep_fold]
  simp

/-- Witness for C1 at a concrete one-table input. -/
theorem C1_unique_flag_iff_witness :
    colW.Unique = true ↔ colW.Name ∈ puCols (mapGet cmW (tW.Owner ++ "." ++ tW.Name)) :=
  C1_unique_flag_iff cmW [t0W] tW (by decide) colW (by decide)

/-- C2 (amended): on row streams whose entity-name field is non-empty
(the merger uses the empty name as its "no current entity" sentinel),
the table merger returns exactly one entity per maximal consecutive
key-run, with that run's columns accumulated in original row order and
entities in stream order (the final pending entity flushed at end of
stream); the constraint merger builds exactly the map obtained by
inserting the analogous per-run constraint entities in stream order. -/
theorem C2_row_merger_runs (rows : List ColRow) (crows : List ConsRow)
    (h1 : ∀ r ∈ rows, r.tableName ≠ "") (h2 : ∀ r ∈ crows, r.consName ≠ "") :
    readTables rows = groupRunsT rows
      ∧ readConstraints crows = buildConsMap (groupRunsC crows) :=
  ⟨readTables_eq rows h1, readConstraints_eq crows h2⟩

/-- Witness for C2: two key-runs of column rows and one two-row
constraint run. -/
theorem C2_row_merger_runs_witness :
    readTables rowsW = groupRunsT rowsW
      ∧ readConstraints crowsW = buildConsMap (groupRunsC crowsW) :=
  C2_row_merger_runs rowsW crowsW (by decide) (by decide)

/-- C2 counterexample: a sorted one-row stream whose key has an empty
table name is dropped by the merger (the empty name is its sentinel),
producing zero entities instead of the claimed one entity per run. -/
theorem C2_empty_name_counterexample :
    readTables [badRowT] = [] ∧ groupRunsT [badRowT] ≠ [] := by decide

/-- C3 (the code refutes the claim): evaluated at two tables that
differ only in owner, `byNameGroup.Less` returns true in both argument
orders — the `x[i].Owner > x[j].Owner` branch also returns true — so
the secondary comparator is not asymmetric, hence not a strict weak
order, and ties across owners are not broken deterministically by
name as the claim requires. -/
theorem C3_byNameGroupLess_not_asymmetric :
    byNameGroupLess tAW tBW = true ∧ byNameGroupLess tBW tAW = true := by decide

/-- C4 counterexample: two distinct (owner, name) pairs yield the same
identifier — normalisation maps "." to the separator itself, so
("A.B", "C") and ("A", "B.C") collide. -/
theorem C4_name_not_injective :
    name ["A.B", "C"] = name ["A", "B.C"]
      ∧ (("A.B", "C") : String × String) ≠ (("A", "B.C") : String × String) := by
  decide

/-- C4 (amended): the identifier function is injective on pairs whose
owner contains none of '_', '.', '$' and whose name contains neither
'.' nor '$' (the name may contain '_'). -/
theorem C4_name_inj_amended (o1 n1 o2 n2 : String)
    (ho1 : ∀ c ∈ o1.data, c ≠ '_' ∧ c ≠ '.' ∧ c ≠ '$')
    (ho2 : ∀ c ∈ o2.data, c ≠ '_' ∧ c ≠ '.' ∧ c ≠ '$')
    (hn1 : ∀ c ∈ n1.data, c ≠ '.' ∧ c ≠ '$')
    (hn2 : ∀ c ∈ n2.data, c ≠ '.' ∧ c ≠ '$')
    (h : name [o1, n1] = name [o2, n2]) : o1 = o2 ∧ n1 = n2 := by
  rw [name_two, name_two] at h
  have hd : replDotL (o1.data ++ '_' :: '_' :: n1.data)
      = replDotL (o2.data ++ '_' :: '_' :: n2.data) := congrArg String.data h
  rw [replDotL_append, replDotL_append] at hd
  have hs1 : replDotL ('_' :: '_' :: n1.data) = '_' :: '_' :: replDotL n1.data := rfl
  have hs2 : replDotL ('_' :: '_' :: n2.data) = '_' :: '_' :: replDotL n2.data := rfl
  rw [hs1, hs2] at hd
  rw [replDotL_id o1.data (fun c hc => ⟨(ho1 c hc).2.1, (ho1 c hc).2.2⟩),
      replDotL_id o2.data (fun c hc => ⟨(ho2 c hc).2.1, (ho2 c hc).2.2⟩)] at hd
  obtain ⟨hA, hB⟩ := append_uu_inj o1.data o2.data (replDotL n1.data) (replDotL n2.data)
    (fun c hc => (ho1 c hc).1) (fun c hc => (ho2 c hc).1) hd
  rw [replDotL_id n1.data hn1, replDotL_id n2.data hn2] at hB
  exact ⟨congrArg String.mk hA, congrArg String.mk hB⟩

/-- Witness for C4 (amended) at a concrete pair. -/
theorem C4_name_inj_amended_witness :
    ("OWNER" : String) = "OWNER" ∧ ("TAB_1" : String) = "TAB_1" :=
  C4_name_inj_amended "OWNER" "TAB_1" "OWNER" "TAB_1"
    (by decide) (by decide) (by decide) (by decide) rfl

/-- C5 counterexample: at a table whose comments and constraint label
contain '<', '>', '&' and '"', the XML-graph renderer's output is
byte-for-byte the box-diagram renderer's output, and that output is a
DOT document (it opens with `digraph`), not an XML document — so its
escaping does not follow XML rules anywhere the two grammars differ. -/
theorem C5_graphml_output_is_dot :
    PrintGraphML [xTableW] = PrintDOT [xTableW]
      ∧ (PrintGraphML [xTableW]).data.take 7 = "digraph".data := by
  refine ⟨PrintGraphML_eq_PrintDOT [xTableW], ?_⟩
  decide

/-- C5 (amended): the XML-graph renderer is byte-for-byte identical to
the box-diagram renderer — same clustering and node/edge shape and the
same (HTML/DOT) escaping; it applies no XML-specific escaping (its
body duplicates `PrintDOT`, and the XML-targeting node printer in the
source is never invoked). -/
theorem C5_graphml_identical_to_dot (tables : List Table) :
    PrintGraphML tables = PrintDOT tables :=
  PrintGraphML_eq_PrintDOT tables

/-- C6: for every table list, each renderer's edge section is exactly
the concatenation of one edge statement per constraint whose remote
table is non-empty (in traversal order, none for the others), and
every statement uses the constraint's first local column name
(`Columns.headD ""`) as the port on both the source and the target
side, as `dotEdgeLine`/`gmlEdgeLine` make explicit. -/
theorem C6_edges_per_constraint (tables : List Table) :
    dotEdges tables = strCat ((edgePairs tables).map fun p => dotEdgeLine p.1 p.2)
      ∧ gmlEdges tables = strCat ((edgePairs tables).map fun p => gmlEdgeLine p.1 p.2)
      ∧ graphmlEdges tables = strCat ((edgePairs tables).map fun p => dotEdgeLine p.1 p.2) :=
  ⟨dotEdges_spec tables, gmlEdges_spec tables, by
    rw [graphmlEdges_eq_dot]
    exact dotEdges_spec tables⟩

/-- C7: decoding the two encoded snapshot records succeeds and yields
the table list exactly — every field and every list order preserved —
and the constraint map with its entries in the encoder's sorted key
order (`json.Marshal` sorts map keys), which as a Go map is equal to
the original: every key reads the same ordered constraint list. -/
theorem C7_snapshot_roundtrip (m : ConsMap) (tables : List Table)
    (hnd : (m.map Prod.fst).Nodup) :
    decodeSnapshot (encodeSnapshot m tables) = some (sortByKey m, tables)
      ∧ consMapEquiv (sortByKey m) m :=
  ⟨decodeSnapshot_enc m tables, fun k => mapGet_sortByKey m hnd k⟩

/-- Witness for C7 at a concrete two-key map (keys out of order) and a
one-table list. -/
theorem C7_snapshot_roundtrip_witness :
    decodeSnapshot (encodeSnapshot cmJ tablesJ) = some (sortByKey cmJ, tablesJ)
      ∧ consMapEquiv (sortByKey cmJ) cmJ :=
  C7_snapshot_roundtrip cmJ tablesJ (by decide)

/-- C8: `grp` equals the indexed-search description — split on "_"
into at most 3 parts (the split really has at most 3 parts), return
the first part at index ≥ 1 whose length exceeds 2, else the whole
argument — and the three documented examples hold. -/
theorem C8_grp_spec (s : String) :
    grp s = grpSpec s
      ∧ (splitNChar '_' 3 s.data).length ≤ 3
      ∧ grp "ORDER_ITEM_DETAIL" = "ITEM" ∧ grp "X" = "X" ∧ grp "AB_C" = "AB_C" := by
  refine ⟨?_, splitNChar_len '_' 3 s.data (by omega), by decide, by decide, by decide⟩
  simp only [grp, grpSpec]
  rw [grpLoop_find]
  rfl

/-- C9 (amended): for the empty table list the box-diagram renderer
emits `digraph {\n\n}\n` and the generic-graph renderer
`graph [\n]\n` — minimal well-formed documents of their grammars, with
no dangling delimiters — while the XML-graph renderer emits the same
minimal DOT document as the box-diagram renderer; and whenever every
constraint has an empty remote table, all three renderers emit empty
edge sections, i.e. documents of nodes only. -/
theorem C9_renderers_empty_and_edgeless (tables : List Table)
    (h : ∀ t ∈ tables, ∀ c ∈ t.Constraints, c.RemoteTable = "") :
    PrintDOT [] = "digraph \x7b\n\n\x7d\n"
      ∧ PrintGML [] = "graph [\n]\n"
      ∧ PrintGraphML [] = "digraph \x7b\n\n\x7d\n"
      ∧ dotEdges tables = "" ∧ gmlEdges tables = "" ∧ graphmlEdges tables = ""
      ∧ PrintDOT tables = "digraph \x7b\n" ++ dotNodes tables ++ "\n\x7d\n"
      ∧ PrintGML tables = "graph [\n" ++ strCat (tables.map PrintNodeGML) ++ "]\n"
      ∧ PrintGraphML tables = "digraph \x7b\n" ++ graphmlNodes tables ++ "\n\x7d\n" := by
  have he : edgePairs tables = [] := edgePairs_nil_of_empty_remotes tables h
  have hd : dotEdges tables = "" := by
    rw [dotEdges_spec, he]
    rfl
  have hg : gmlEdges tables = "" := by
    rw [gmlEdges_spec, he]
    rfl
  have hgm : graphmlEdges tables = "" := by
    rw [graphmlEdges_eq_dot]
    exact hd
  refine ⟨by decide, by decide, by decide, hd, hg, hgm, ?_, ?_, ?_⟩
  · rw [PrintDOT, hd, append_empty_str]
  · rw [PrintGML, hg, append_empty_str]
  · rw [PrintGraphML, hgm, append_empty_str]

/-- Witness for C9 (amended): a table whose only constraint has an
empty remote table. -/
theorem C9_renderers_empty_and_edgeless_witness :
    PrintDOT [] = "digraph \x7b\n\n\x7d\n"
      ∧ PrintGML [] = "graph [\n]\n"
      ∧ PrintGraphML [] = "digraph \x7b\n\n\x7d\n"
      ∧ dotEdges [tableEW] = "" ∧ gmlEdges [tableEW] = "" ∧ graphmlEdges [tableEW] = ""
      ∧ PrintDOT [tableEW] = "digraph \x7b\n" ++ dotNodes [tableEW] ++ "\n\x7d\n"
      ∧ PrintGML [tableEW] = "graph [\n" ++ strCat ([tableEW].map PrintNodeGML) ++ "]\n"
      ∧ PrintGraphML [tableEW] = "digraph \x7b\n" ++ graphmlNodes [tableEW] ++ "\n\x7d\n" :=
  C9_renderers_empty_and_edgeless [tableEW] (by decide)

/-- C9 counterexample: the claim requires the XML-graph renderer's
empty document to be well-formed in its own (XML) grammar, but the
emitted document contains no '<' at all — and every XML document
contains at least one tag — because it is the DOT renderer's minimal
document. -/
theorem C9_graphml_empty_not_xml :
    PrintGraphML [] = "digraph \x7b\n\n\x7d\n"
      ∧ (PrintGraphML []).data.all (fun ch => ch ≠ '<') = true
      ∧ PrintGraphML [] ≠ "" := by decide

theorem two_space_append_ne_empty (x : String) : "  " ++ x ≠ "" := fun h =>
  List.cons_ne_nil ' ' (' ' :: x.data) (congrArg String.data h)

/-- C10: a constraint with an empty local column list but a non-empty
remote table still renders an edge, with the empty string as the port
on both sides, in all three renderers; the Go loop guards the
`Columns[0]` access behind a length test, so no out-of-bounds access
occurs (the model is total, via `headD`). -/
theorem C10_empty_columns_edge (t : Table) (c : TableConstraint)
    (h1 : c.Columns = []) (h2 : c.RemoteTable ≠ "") :
    dotEdgeFor t c
        = "  " ++ name [t.Owner, t.Name] ++ ":" ++ "" ++ " -> "
            ++ name [c.RemoteOwner, c.RemoteTable] ++ ":" ++ ""
            ++ " [label=" ++ goQuote c.RemoteName ++ "];\n"
      ∧ gmlEdgeFor t c
        = "\tedge [\n\t\tsource " ++ name [t.Owner, t.Name] ++ ":" ++ ""
            ++ "\n\t\ttarget " ++ name [c.RemoteOwner, c.RemoteTable] ++ ":" ++ ""
            ++ "\n\t\tlabel " ++ goQuote c.RemoteName ++ "\n\t]\n"
      ∧ graphmlEdgeFor t c = dotEdgeFor t c
      ∧ dotEdgeFor t c ≠ "" := by
  have hcol : c.Columns.headD "" = "" := by
    rw [h1]
    rfl
  have hdot : dotEdgeFor t c
      = "  " ++ name [t.Owner, t.Name] ++ ":" ++ "" ++ " -> "
          ++ name [c.RemoteOwner, c.RemoteTable] ++ ":" ++ ""
          ++ " [label=" ++ goQuote c.RemoteName ++ "];\n" := by
    simp only [dotEdgeFor, hcol, if_neg h2]
  refine ⟨hdot, ?_, rfl, ?_⟩
  · simp only [gmlEdgeFor, hcol, if_neg h2]
  · have hassoc :
        "  " ++ name [t.Owner, t.Name] ++ ":" ++ "" ++ " -> "
            ++ name [c.RemoteOwner, c.RemoteTable] ++ ":" ++ ""
            ++ " [label=" ++ goQuote c.RemoteName ++ "];\n"
          = "  " ++ (name [t.Owner, t.Name] ++ (":" ++ ("" ++ (" -> "
            ++ (name [c.RemoteOwner, c.RemoteTable] ++ (":" ++ ("" ++ (" [label="
            ++ (goQuote c.RemoteName ++ "];\n"))))))))) := by
      simp only [String.append_assoc]
    rw [hdot, hassoc]
    exact two_space_append_ne_empty _

/-- Witness for C10 at a concrete constraint. -/
theorem C10_empty_columns_edge_witness :
    dotEdgeFor tPW cPW
        = "  " ++ name [tPW.Owner, tPW.Name] ++ ":" ++ "" ++ " -> "
            ++ name [cPW.RemoteOwner, cPW.RemoteTable] ++ ":" ++ ""
            ++ " [label=" ++ goQuote cPW.RemoteName ++ "];\n"
      ∧ gmlEdgeFor tPW cPW
        = "\tedge [\n\t\tsource " ++ name [tPW.Owner, tPW.Name] ++ ":" ++ ""
            ++ "\n\t\ttarget " ++ name [cPW.RemoteOwner, cPW.RemoteTable] ++ ":" ++ ""
            ++ "\n\t\tlabel " ++ goQuote cPW.RemoteName ++ "\n\t]\n"
      ∧ graphmlEdgeFor tPW cPW = dotEdgeFor tPW cPW
      ∧ dotEdgeFor tPW cPW ≠ "" :=
  C10_empty_columns_edge tPW cPW rfl (by decide)

end SchemaGraph
